import Mathlib

set_option autoImplicit false

/-
Shallow embedding of the launcheq patch client (src/client/client.go).

The program reconciles a local directory tree against a remote manifest
(a FileList of download and delete entries), and self-updates its own
executable by comparing MD5 hashes.  External effects (HTTP, the real MD5
function, zip parsing, and OS remove failures) are supplied by an
environment of oracles; filesystem state is an association list from path
strings to nodes; every side effect performed by the code is recorded in an
event trace so that claims about which downloads, writes, deletes and log
lines happen can be stated and proved.

String helpers model the Go standard library functions the source uses
(ASCII case mapping as in the hash and sentinel comparisons, path cleaning
as in path/filepath on a slash-separated platform).
-/

/-- Node stored in the modelled filesystem: a regular file with its byte
content, or a directory. -/
inductive FsNode where
  | file (content : String)
  | dir
deriving DecidableEq, Repr

/-- Filesystem model: association list from path to node.  Lookup returns
the first binding, set replaces any binding for the key. -/
abbrev FS := List (String × FsNode)

/-- Model of os.Stat restricted to what the client observes: the node at a
path, or none when the path does not exist. -/
def statFs : FS → String → Option FsNode
  | [], _ => none
  | (k, v) :: rest, q => if k = q then some v else statFs rest q

/-- Remove every binding of a path, modelling os.Remove of a file. -/
def removeFs : FS → String → FS
  | [], _ => []
  | (k, v) :: rest, q => if k = q then removeFs rest q else (k, v) :: removeFs rest q

/-- Write a node at a path, replacing any previous binding, modelling
os.Create followed by writes. -/
def setFs (fs : FS) (q : String) (n : FsNode) : FS :=
  (q, n) :: removeFs fs q

/-- ASCII uppercase of one character, as Go strings.ToUpper acts on the
ASCII hash and sentinel strings the client compares. -/
def chUpper (c : Char) : Char :=
  if 97 ≤ c.toNat ∧ c.toNat ≤ 122 then Char.ofNat (c.toNat - 32) else c

/-- ASCII lowercase of one character, as Go strings.ToLower acts on the
ASCII entry names the client inspects. -/
def chLower (c : Char) : Char :=
  if 65 ≤ c.toNat ∧ c.toNat ≤ 90 then Char.ofNat (c.toNat + 32) else c

/-- Model of strings.ToUpper on the ASCII strings the client handles. -/
def strToUpper (s : String) : String :=
  String.mk (s.data.map chUpper)

/-- Model of strings.ToLower on the ASCII strings the client handles. -/
def strToLower (s : String) : String :=
  String.mk (s.data.map chLower)

/-- Occurrence test of a character list inside another, by scanning every
tail. -/
def containsSubAux (sub : List Char) : List Char → Bool
  | [] => List.isPrefixOf sub []
  | c :: rest => List.isPrefixOf sub (c :: rest) || containsSubAux sub rest

/-- Model of strings.Contains: true when the second string occurs inside
the first. -/
def containsSubstr (s sub : String) : Bool :=
  containsSubAux sub.data s.data

/-- Model of strings.TrimSuffix. -/
def trimSuffix (s suf : String) : String :=
  if List.isPrefixOf suf.data.reverse s.data.reverse then
    String.mk (s.data.take (s.data.length - suf.data.length))
  else s

/-- Model of strings.TrimSpace: drop whitespace from both ends. -/
def trimSpace (s : String) : String :=
  String.mk (((s.data.dropWhile Char.isWhitespace).reverse.dropWhile
    Char.isWhitespace).reverse)

/-- Split a character list on a separator character; mirrors the slash
splitting the path helpers use. -/
def splitOnChar (sep : Char) : List Char → List (List Char)
  | [] => [[]]
  | c :: rest =>
    let r := splitOnChar sep rest
    if c = sep then [] :: r
    else
      match r with
      | [] => [[c]]
      | h :: t => (c :: h) :: t

/-- Join path elements with slashes. -/
def joinWithSlash : List (List Char) → List Char
  | [] => []
  | [x] => x
  | x :: rest => x ++ '/' :: joinWithSlash rest

/-- Model of path cleaning (filepath.Clean on a slash-separated platform):
resolve inner dot and dot-dot elements lexically. -/
def pathClean (p : String) : String :=
  if p = "" then "."
  else
    let rooted : Bool :=
      match p.data with
      | '/' :: _ => true
      | _ => false
    let parts := splitOnChar '/' p.data
    let out := parts.foldl (fun acc part =>
      if part = ([] : List Char) ∨ part = ['.'] then acc
      else if part = ['.', '.'] then
        match acc with
        | [] => if rooted then [] else [part]
        | a :: rest => if a = ['.', '.'] then part :: acc else rest
      else part :: acc) ([] : List (List Char))
    let body := joinWithSlash out.reverse
    if rooted then String.mk ('/' :: body)
    else if body = ([] : List Char) then "." else String.mk body

/-- Model of filepath.Join on two elements: join with a slash and clean,
skipping empty elements as the Go function does. -/
def pathJoin (a b : String) : String :=
  if a = "" ∧ b = "" then ""
  else if a = "" then pathClean b
  else if b = "" then pathClean a
  else pathClean (String.mk (a.data ++ '/' :: b.data))

/-- Model of filepath.Dir: everything up to and including the final slash,
cleaned; dot when there is no slash. -/
def pathDirOf (p : String) : String :=
  let cs := p.data
  match cs.reverse.findIdx? (fun c => c = '/') with
  | none => "."
  | some k => pathClean (String.mk (cs.take (cs.length - k)))

/-- Model of filepath.Base: last element of the path after trailing
slashes are removed. -/
def filepathBase (p : String) : String :=
  if p = "" then "."
  else
    let q := (p.data.reverse.dropWhile (fun c => c = '/')).reverse
    if q = ([] : List Char) then "/"
    else
      match (splitOnChar '/' q).getLast? with
      | some last => String.mk last
      | none => String.mk q

/-- One download or delete entry of the manifest (FileEntry in the
source): relative path, declared size, expected MD5 hex digest. -/
structure FileEntry where
  name : String
  size : Nat
  md5 : String
deriving DecidableEq, Repr

/-- The manifest (FileList in the source): version, base URL for per-file
downloads, downloads and deletes in order. -/
structure FileList where
  version : String
  downloadPrefix : String
  downloads : List FileEntry
  deletes : List FileEntry
deriving DecidableEq, Repr

/-- The persisted version record read from and written to the config
store (config.Config.FileListVersion). -/
structure Config where
  fileListVersion : String
deriving DecidableEq, Repr

/-- One entry of a zip archive as the Archive Expander walks it. -/
structure ZipEntry where
  name : String
  isDir : Bool
  content : String
deriving DecidableEq, Repr

/-- Arguments of each log line the modelled code emits, one constructor
per logf call site, carrying the formatted arguments. -/
inductive LogMsg where
  | upToDateShort
  | upToDate (v : String)
  | totalPatchSize (bytes : Nat) (v : Option String)
  | skipDotDot (name : String)
  | skippedUpToDate (name : String)
  | skipDeleteDir (name : String)
  | failedDelete (name : String)
  | removed (name : String)
  | downloadingMaps
  | downloadingFile (name : String) (size : Nat)
  | removedFile (path : String)
  | failedRemove (path : String)
  | checkingSelfUpdate (url : String)
  | remoteSiteDown
  | selfUpdateNotNeeded
  | updating (myHash remoteHash : String)
  | downloadingSelf (url : String)
  | applyingUpdate
deriving DecidableEq, Repr

/-- Trace event: one observable side effect of the modelled code.  The
four HTTP constructors distinguish the four Get call sites of the source
(bulk maps archive, per-file download, self-update hash, self-update
binary). -/
inductive Event where
  | log (m : LogMsg)
  | mkdirAll (path : String)
  | createFile (path : String)
  | writeFile (path : String)
  | removeFile (path : String)
  | httpGetMapsZip (url : String)
  | httpGetFile (url : String)
  | httpGetHash (url : String)
  | httpGetExe (url : String)
  | saveConfig (version : String)
  | applySelfUpdate
deriving DecidableEq, Repr

/-- Environment of oracles for the external world: http answers a URL with
none on transport error or some status and body; md5hex is the lowercase
hex digest Go fmt.Sprintf with the x verb produces for a file content;
parseZip reads archive bytes as a list of entries, none when the archive
cannot be opened; removeFails says whether os.Remove fails at a path. -/
structure Env where
  http : String → Option (Nat × String)
  md5hex : String → String
  parseZip : String → Option (List ZipEntry)
  removeFails : String → Bool

/-- Model of md5Checksum (client.go lines 575 to 588): open the path and
hash its content; fails when the path is absent or is a directory. -/
def md5Checksum (env : Env) (fs : FS) (p : String) : Option String :=
  match statFs fs p with
  | none => none
  | some FsNode.dir => none
  | some (FsNode.file c) => some (env.md5hex c)

/-- True when the lowercased entry name has the bulk maps directory as a
leading directory, the test the source does with strings.HasPrefix of the
lowercased name. -/
def isMapsName (n : String) : Bool :=
  List.isPrefixOf "maps/".data (strToLower n).data

/-- Synchronizer state threaded through one reconciliation pass: the
filesystem, the trace, the isPatched flag, the process wide bulk-archive
flag, the per pass maps log suppression flag, byte counters, the persisted
version record value, and the summary field set at the end of the pass. -/
structure PatchState where
  fs : FS
  events : List Event
  isPatched : Bool
  isMapsDownloaded : Bool
  isMapsSkippedBefore : Bool
  totalDownloaded : Nat
  progressSize : Nat
  cfgVersion : String
  summaryDownloaded : Option Nat
deriving DecidableEq, Repr

/-- Outcome of a synchronizer step: continue with a state, or abort the
pass with an error message, keeping the state reached so far (the Go
function returns an error; the filesystem effects already performed
persist). -/
inductive POutcome where
  | ok (s : PatchState)
  | fatal (msg : String) (s : PatchState)
deriving DecidableEq, Repr

/-- State reached by an outcome, whether or not the pass aborted. -/
def stateOf : POutcome → PatchState
  | POutcome.ok s => s
  | POutcome.fatal _ s => s

/-- True when the outcome did not abort the pass. -/
def isOkOutcome : POutcome → Bool
  | POutcome.ok _ => true
  | POutcome.fatal _ _ => false

/-- Cumulative directory chain of a cleaned path: for a/b/c the paths a,
a/b and a/b/c, the directories os.MkdirAll creates in order. -/
def dirChain (p : String) : List String :=
  let parts := splitOnChar '/' (pathClean p).data
  (List.range parts.length).map (fun i => String.mk (joinWithSlash (parts.take (i + 1))))

/-- Create each directory of a list in order, failing when a regular file
already occupies one of them, as os.MkdirAll does. -/
def mkdirList : FS → List String → Option FS
  | fs, [] => some fs
  | fs, d :: rest =>
    match statFs fs d with
    | some (FsNode.file _) => none
    | some FsNode.dir => mkdirList fs rest
    | none => mkdirList (setFs fs d FsNode.dir) rest

/-- Model of os.MkdirAll: create the whole directory chain of a path. -/
def mkdirAllFs (fs : FS) (p : String) : Option FS :=
  mkdirList fs (dirChain p)

/-- Result of the Archive Expander loop: filesystem, trace, and whether
every entry was written (false models the error return that aborts the
caller, keeping the writes already done). -/
structure UnpackRes where
  fs : FS
  events : List Event
  ok : Bool
deriving DecidableEq, Repr

/-- Model of the entry loop of unpack (client.go lines 643 to 674): each
entry is placed at the join of the destination directory and the stored
entry name, with no check of the name; directories are created, files are
opened with truncation and written. -/
def unpackRun (dst : String) : List ZipEntry → FS → List Event → UnpackRes
  | [], fs, evs => UnpackRes.mk fs evs true
  | ze :: rest, fs, evs =>
    let filePath := pathJoin dst ze.name
    if ze.isDir then
      match mkdirAllFs fs filePath with
      | none => UnpackRes.mk fs evs false
      | some fs' => unpackRun dst rest fs' (evs ++ [Event.mkdirAll filePath])
    else
      match mkdirAllFs fs (pathDirOf filePath) with
      | none => UnpackRes.mk fs evs false
      | some fs' =>
        unpackRun dst rest (setFs fs' filePath (FsNode.file ze.content))
          (evs ++ [Event.mkdirAll (pathDirOf filePath), Event.createFile filePath,
            Event.writeFile filePath])

/-- Tail of the bulk maps branch of downloadPatchFile: on a successful
expansion adopt the expander filesystem and trace and set the process wide
flag; on an expansion failure abort keeping the partial writes. -/
def dpfMapsTail (r : UnpackRes) (s3 : PatchState) : POutcome :=
  if r.ok then
    POutcome.ok { s3 with fs := r.fs, events := r.events, isMapsDownloaded := true }
  else POutcome.fatal "unzip" { s3 with fs := r.fs, events := r.events }

/-- Model of downloadPatchFile (client.go lines 516 to 573).  When the
bulk archive flag is unset and the entry is under maps, fetch maps.zip
once, write it, expand it, and set the flag; otherwise create and truncate
the destination file, then stream the HTTP body into it.  Transport
failures and non 200 statuses abort the pass. -/
def downloadPatchFile (env : Env) (pu cv dp : String) (entry : FileEntry)
    (s : PatchState) : POutcome :=
  if !s.isMapsDownloaded && isMapsName entry.name then
    let url := pu ++ "/maps.zip"
    let s1 := { s with events := s.events ++ [Event.log LogMsg.downloadingMaps,
      Event.httpGetMapsZip url] }
    match env.http url with
    | none => POutcome.fatal "download maps.zip" s1
    | some (status, body) =>
      if status ≠ 200 then POutcome.fatal "maps.zip not 200" s1
      else
        let s2 := { s1 with
          fs := setFs s1.fs "maps.zip" (FsNode.file "")
          events := s1.events ++ [Event.createFile "maps.zip"] }
        let s3 := { s2 with
          fs := setFs s2.fs "maps.zip" (FsNode.file body)
          events := s2.events ++ [Event.writeFile "maps.zip"] }
        match env.parseZip body with
        | none => POutcome.fatal "unzip open" s3
        | some zs => dpfMapsTail (unpackRun "." zs s3.fs s3.events) s3
  else
    let s1 := { s with events := s.events ++
      [Event.log (LogMsg.downloadingFile entry.name entry.size)] }
    let s2 := { s1 with
      fs := setFs s1.fs entry.name (FsNode.file "")
      events := s1.events ++ [Event.createFile entry.name] }
    let url := dp ++ "/" ++ cv ++ "/" ++ entry.name
    let s3 := { s2 with events := s2.events ++ [Event.httpGetFile url] }
    match env.http url with
    | none => POutcome.fatal "download file" s3
    | some (status, body) =>
      if status ≠ 200 then POutcome.fatal "file not 200" s3
      else
        POutcome.ok { s3 with
          fs := setFs s3.fs entry.name (FsNode.file body)
          events := s3.events ++ [Event.writeFile entry.name] }

/-- Directory creation step of the download loop (client.go lines 429 to
435): when the name holds a slash, create the parent directories of the
entry, the name with its base element trimmed from the end. -/
def mkdirStep (entry : FileEntry) (s : PatchState) : Option PatchState :=
  if containsSubstr entry.name "/" then
    match mkdirAllFs s.fs (trimSuffix entry.name (filepathBase entry.name)) with
    | none => none
    | some fs' =>
      some { s with
        fs := fs'
        events := s.events ++
          [Event.mkdirAll (trimSuffix entry.name (filepathBase entry.name))] }
  else some s

/-- One iteration of the download loop (client.go lines 423 to 475):
skip names holding a dot-dot segment, create parent directories, download
absent files, hash present files and compare the digest with the entry
digest by string equality, skipping matches (with log suppression for
repeated maps entries) and downloading mismatches. -/
def processDownloadEntry (env : Env) (pu cv dp : String) (entry : FileEntry)
    (s : PatchState) : POutcome :=
  if containsSubstr entry.name ".." then
    POutcome.ok { s with events := s.events ++ [Event.log (LogMsg.skipDotDot entry.name)] }
  else
    match mkdirStep entry s with
    | none => POutcome.fatal "mkdir" s
    | some s1 =>
      match statFs s1.fs entry.name with
      | none =>
        match downloadPatchFile env pu cv dp entry s1 with
        | POutcome.fatal m s2 => POutcome.fatal m s2
        | POutcome.ok s2 =>
          POutcome.ok { s2 with
            totalDownloaded := s2.totalDownloaded + entry.size
            progressSize := s2.progressSize + entry.size
            isPatched := true }
      | some _ =>
        match md5Checksum env s1.fs entry.name with
        | none => POutcome.fatal "md5checksum" s1
        | some hash =>
          if hash = entry.md5 then
            let s2 := { s1 with progressSize := s1.progressSize + entry.size }
            if isMapsName entry.name then
              if s2.isMapsSkippedBefore then POutcome.ok s2
              else
                POutcome.ok { s2 with
                  isMapsSkippedBefore := true
                  events := s2.events ++ [Event.log (LogMsg.skippedUpToDate entry.name)] }
            else
              POutcome.ok { s2 with
                events := s2.events ++ [Event.log (LogMsg.skippedUpToDate entry.name)] }
          else
            match downloadPatchFile env pu cv dp entry s1 with
            | POutcome.fatal m s2 => POutcome.fatal m s2
            | POutcome.ok s2 =>
              POutcome.ok { s2 with
                totalDownloaded := s2.totalDownloaded + entry.size
                progressSize := s2.progressSize + entry.size
                isPatched := true }

/-- The download loop over the manifest entries in order; a fatal step
aborts the pass with the state reached. -/
def processDownloads (env : Env) (pu cv dp : String) :
    List FileEntry → PatchState → POutcome
  | [], s => POutcome.ok s
  | e :: rest, s =>
    match processDownloadEntry env pu cv dp e s with
    | POutcome.ok s' => processDownloads env pu cv dp rest s'
    | POutcome.fatal m s' => POutcome.fatal m s'

/-- One iteration of the delete loop (client.go lines 477 to 499): skip
names holding a dot-dot segment, skip absent paths silently, never remove
directories, remove regular files, and log a removal failure without
aborting. -/
def processDeleteEntry (env : Env) (entry : FileEntry) (s : PatchState) : PatchState :=
  if containsSubstr entry.name ".." then
    { s with events := s.events ++ [Event.log (LogMsg.skipDotDot entry.name)] }
  else
    match statFs s.fs entry.name with
    | none => s
    | some FsNode.dir =>
      { s with events := s.events ++ [Event.log (LogMsg.skipDeleteDir entry.name)] }
    | some (FsNode.file _) =>
      if env.removeFails entry.name then
        { s with events := s.events ++ [Event.log (LogMsg.failedDelete entry.name)] }
      else
        { s with
          fs := removeFs s.fs entry.name
          events := s.events ++ [Event.removeFile entry.name,
            Event.log (LogMsg.removed entry.name)] }

/-- The delete loop over the manifest delete entries in order; no delete
aborts the pass. -/
def processDeletes (env : Env) : List FileEntry → PatchState → PatchState
  | [], s => s
  | e :: rest, s => processDeletes env rest (processDeleteEntry env e s)

/-- Synchronizer state at the start of a pass, before any entry is
processed. -/
def patchStart (cfg : Config) (mapsFlag : Bool) (fs : FS) : PatchState :=
  { fs := fs, events := [], isPatched := false, isMapsDownloaded := mapsFlag,
    isMapsSkippedBefore := false, totalDownloaded := 0, progressSize := 1,
    cfgVersion := cfg.fileListVersion, summaryDownloaded := none }

/-- Tail of the patch pass after the download loop: a fatal download loop
aborts the pass; otherwise the delete loop runs, the new version is
recorded with a config save, and the summary is set. -/
def patchFinish (env : Env) (fl : FileList) (out : POutcome) : POutcome :=
  match out with
  | POutcome.fatal m s => POutcome.fatal m s
  | POutcome.ok s2 =>
    let s3 := processDeletes env fl.deletes s2
    POutcome.ok { s3 with
      cfgVersion := fl.version
      events := s3.events ++ [Event.saveConfig fl.version]
      summaryDownloaded := some s3.totalDownloaded }

/-- Model of patch (client.go lines 391 to 514): when the manifest version
equals the recorded version the pass is a logged no-op; otherwise walk the
downloads, walk the deletes, record the new version in the config store,
and set the summary. -/
def patch (env : Env) (pu cv : String) (cfg : Config) (mapsFlag : Bool)
    (fl : FileList) (fs : FS) : POutcome :=
  if cfg.fileListVersion = fl.version then
    if fl.version.data.length < 8 then
      POutcome.ok { patchStart cfg mapsFlag fs with
        events := [Event.log LogMsg.upToDateShort] }
    else
      POutcome.ok { patchStart cfg mapsFlag fs with
        events := [Event.log (LogMsg.upToDate (String.mk (fl.version.data.take 8)))] }
  else
    patchFinish env fl (processDownloads env pu cv fl.downloadPrefix fl.downloads
      { patchStart cfg mapsFlag fs with
        events := [Event.log (LogMsg.totalPatchSize
          (fl.downloads.foldl (fun acc e => acc + e.size) 0)
          (if fl.version.data.length < 8 then none
           else some (String.mk (fl.version.data.take 8))))] })

/-- Self-updater state: filesystem and trace. -/
structure SuState where
  fs : FS
  events : List Event
deriving DecidableEq, Repr

/-- Outcome of the self-updater: done, or an error return, keeping the
state reached. -/
inductive SUOutcome where
  | ok (s : SuState)
  | fatal (msg : String) (s : SuState)
deriving DecidableEq, Repr

/-- State reached by a self-updater outcome. -/
def suStateOf : SUOutcome → SuState
  | SUOutcome.ok s => s
  | SUOutcome.fatal _ s => s

/-- True when the self-updater did not return an error. -/
def suIsOk : SUOutcome → Bool
  | SUOutcome.ok _ => true
  | SUOutcome.fatal _ _ => false

/-- Best effort cleanup of one leftover file in selfUpdate (client.go
lines 277 to 293): a missing path is silent, a failed removal is logged,
a removal is logged. -/
def removeCleanup (env : Env) (s : SuState) (p : String) : SuState :=
  match statFs s.fs p with
  | none => s
  | some _ =>
    if env.removeFails p then
      { s with events := s.events ++ [Event.log (LogMsg.failedRemove p)] }
    else
      { s with
        fs := removeFs s.fs p
        events := s.events ++ [Event.log (LogMsg.removedFile p)] }

/-- Model of selfUpdate (client.go lines 267 to 382): clean up leftover
files, hash the running executable, fetch the remote hash line, normalize
both sides with trim and uppercase, compare the normalized remote value
with the mixed case literal Not Found, then with the local hash, and on a
difference download the replacement binary and apply it in place. -/
def selfUpdate (env : Env) (pu baseName exeName : String) (fs : FS) : SUOutcome :=
  let s0 : SuState := SuState.mk fs []
  let s1 := removeCleanup env s0 (baseName ++ ".bat")
  let s2 := removeCleanup env s1 ("." ++ baseName ++ ".exe.old")
  match md5Checksum env s2.fs exeName with
  | none => SUOutcome.fatal "checksum" s2
  | some myHash0 =>
    let url := pu ++ "/launcheq-hash.txt"
    let s3 := { s2 with events := s2.events ++
      [Event.log (LogMsg.checkingSelfUpdate url), Event.httpGetHash url] }
    match env.http url with
    | none => SUOutcome.fatal "download hash" s3
    | some (status, data) =>
      if status ≠ 200 then SUOutcome.fatal "hash not 200" s3
      else
        let myHash := strToUpper (trimSpace myHash0)
        let remoteHash := strToUpper (trimSpace data)
        if remoteHash = "Not Found" then
          SUOutcome.ok { s3 with events := s3.events ++ [Event.log LogMsg.remoteSiteDown] }
        else if myHash = remoteHash then
          SUOutcome.ok { s3 with events := s3.events ++ [Event.log LogMsg.selfUpdateNotNeeded] }
        else
          let url2 := pu ++ "/" ++ baseName ++ ".exe"
          let s4 := { s3 with events := s3.events ++
            [Event.log (LogMsg.updating myHash remoteHash),
             Event.log (LogMsg.downloadingSelf url2), Event.httpGetExe url2] }
          match env.http url2 with
          | none => SUOutcome.fatal "get exe" s4
          | some (st2, body) =>
            if st2 ≠ 200 then SUOutcome.fatal "exe not 200" s4
            else
              SUOutcome.ok { s4 with
                fs := setFs s4.fs exeName (FsNode.file body)
                events := s4.events ++ [Event.log LogMsg.applyingUpdate,
                  Event.applySelfUpdate] }

/-- True for a log event. -/
def isLogEvent : Event → Bool
  | Event.log _ => true
  | _ => false

/-- True for the bulk maps archive fetch event. -/
def isMapsZipGet : Event → Bool
  | Event.httpGetMapsZip _ => true
  | _ => false

/-- True for a per-file download fetch event. -/
def isFileGet : Event → Bool
  | Event.httpGetFile _ => true
  | _ => false

/-- True for the self-update binary fetch event. -/
def isExeGet : Event → Bool
  | Event.httpGetExe _ => true
  | _ => false

/-- Number of bulk maps archive fetches in a trace. -/
def mapsZipGetCount (evs : List Event) : Nat :=
  evs.countP (fun e => isMapsZipGet e)

/-- Generic witness environment: every URL answers 200, the digest oracle
is constant, archives parse empty, removals succeed. -/
def wEnv : Env :=
  { http := fun _ => some (200, "BODY")
    md5hex := fun _ => "0123456789abcdef0123456789abcdef"
    parseZip := fun _ => some []
    removeFails := fun _ => false }

/-- Environment whose HTTP oracle always fails with a transport error. -/
def failEnv : Env :=
  { http := fun _ => none
    md5hex := fun _ => "0123456789abcdef0123456789abcdef"
    parseZip := fun _ => none
    removeFails := fun _ => false }

/-- Environment for the hash case comparison scenario: the digest oracle
returns the lowercase hex digest of the empty content, every URL answers
200 with fresh bytes. -/
def caseEnv : Env :=
  { http := fun _ => some (200, "NEW")
    md5hex := fun _ => "d41d8cd98f00b204e9800998ecf8427e"
    parseZip := fun _ => none
    removeFails := fun _ => false }

/-- Environment for the self-update sentinel scenario: the hash endpoint
answers the sentinel text Not Found, the binary endpoint answers a new
binary. -/
def sentinelEnv : Env :=
  { http := fun u =>
      if u = "https://p/launcheq-hash.txt" then some (200, "Not Found")
      else if u = "https://p/launcheq.exe" then some (200, "NEWBIN")
      else none
    md5hex := fun _ => "d41d8cd98f00b204e9800998ecf8427e"
    parseZip := fun _ => none
    removeFails := fun _ => false }

/-- Environment for the self-update equal hash scenario: the remote hash
line is the uppercase form of the local digest. -/
def equalHashEnv : Env :=
  { http := fun u =>
      if u = "https://p/launcheq-hash.txt" then
        some (200, "0123456789ABCDEF0123456789ABCDEF")
      else some (200, "NEWBIN")
    md5hex := fun _ => "0123456789abcdef0123456789abcdef"
    parseZip := fun _ => none
    removeFails := fun _ => false }

/-- Environment for the self-update differing hash scenario: the remote
hash line differs from the local digest and is not the sentinel. -/
def diffHashEnv : Env :=
  { http := fun u =>
      if u = "https://p/launcheq-hash.txt" then
        some (200, "ffffffffffffffffffffffffffffffff")
      else some (200, "NEWBIN")
    md5hex := fun _ => "0123456789abcdef0123456789abcdef"
    parseZip := fun _ => none
    removeFails := fun _ => false }

/-- Initial synchronizer state over a filesystem, as the patch pass builds
it before the download loop. -/
def initPS (fs : FS) : PatchState :=
  { fs := fs, events := [], isPatched := false, isMapsDownloaded := false
    isMapsSkippedBefore := false, totalDownloaded := 0, progressSize := 1
    cfgVersion := "prev", summaryDownloaded := none }

/-- Download entry whose expected digest is the uppercase form of the
digest the oracle computes. -/
def fooEntryUpper : FileEntry :=
  FileEntry.mk "foo.dat" 5 "D41D8CD98F00B204E9800998ECF8427E"

/-- Download entry whose expected digest equals the computed digest
exactly. -/
def fooEntryLower : FileEntry :=
  FileEntry.mk "foo.dat" 5 "d41d8cd98f00b204e9800998ecf8427e"

/-- Download entry under the maps directory matching the computed
digest. -/
def mapsEntryA : FileEntry :=
  FileEntry.mk "maps/a.txt" 3 "d41d8cd98f00b204e9800998ecf8427e"

/-- Second download entry under the maps directory matching the computed
digest. -/
def mapsEntryB : FileEntry :=
  FileEntry.mk "maps/b.txt" 4 "d41d8cd98f00b204e9800998ecf8427e"

/-- Zip entry whose stored name climbs out of the destination through a
dot-dot segment. -/
def evilZipEntry : ZipEntry :=
  ZipEntry.mk "../evil.txt" false "X"

/-- Filesystem holding two up to date map files. -/
def mapsFs : FS := [("maps/a.txt", FsNode.file ""), ("maps/b.txt", FsNode.file "")]

/-- State after the directory creation step of the first maps entry. -/
def mapsPS1 : PatchState :=
  { initPS mapsFs with
    fs := ("maps", FsNode.dir) :: mapsFs
    events := [Event.mkdirAll "maps/"] }

/-- State after the first up to date maps entry was counted and logged:
the suppression flag is now set. -/
def mapsPS2 : PatchState :=
  { mapsPS1 with
    progressSize := mapsPS1.progressSize + mapsEntryA.size
    isMapsSkippedBefore := true
    events := mapsPS1.events ++ [Event.log (LogMsg.skippedUpToDate mapsEntryA.name)] }

/-- State after the directory creation step of the second maps entry. -/
def mapsPS2b : PatchState :=
  { mapsPS2 with events := mapsPS2.events ++ [Event.mkdirAll "maps/"] }

/-- Invariant carried through the download loop: the trace holds at most
one bulk maps archive fetch, and while the process wide flag is still
unset it holds none. -/
def mapsInvariant (s : PatchState) : Prop :=
  mapsZipGetCount s.events ≤ 1 ∧
  (s.isMapsDownloaded = false → mapsZipGetCount s.events = 0)

/-- The invariant transported to an outcome: an aborted pass still shows
at most one bulk archive fetch in its trace. -/
def mapsOutInv : POutcome → Prop
  | POutcome.ok s => mapsInvariant s
  | POutcome.fatal _ s => mapsZipGetCount s.events ≤ 1

theorem statFs_removeFs_self (fs : FS) (p : String) : statFs (removeFs fs p) p = none := by
  induction fs with
  | nil => rfl
  | cons kv rest ih =>
    obtain ⟨k, v⟩ := kv
    by_cases h : k = p <;> simp [removeFs, statFs, h, ih]

theorem statFs_removeFs_ne (fs : FS) {p q : String} (h : p ≠ q) :
    statFs (removeFs fs p) q = statFs fs q := by
  induction fs with
  | nil => rfl
  | cons kv rest ih =>
    obtain ⟨k, v⟩ := kv
    by_cases hk : k = p
    · subst hk
      simp [removeFs, statFs, h, ih]
    · by_cases hq : k = q <;> simp [removeFs, statFs, hk, hq, Ne.symm h, ih]

theorem statFs_setFs_self (fs : FS) (p : String) (n : FsNode) :
    statFs (setFs fs p n) p = some n := by
  simp [setFs, statFs]

theorem statFs_setFs_ne (fs : FS) {p q : String} (h : p ≠ q) (n : FsNode) :
    statFs (setFs fs p n) q = statFs fs q := by
  simp [setFs, statFs, fun hpq => h hpq, statFs_removeFs_ne fs h]

theorem mkdirList_keeps_file {ds : List String} {fs fs' : FS} {q : String} {c : String}
    (hrun : mkdirList fs ds = some fs') (hq : statFs fs q = some (FsNode.file c)) :
    statFs fs' q = some (FsNode.file c) := by
  induction ds generalizing fs with
  | nil =>
    simp [mkdirList] at hrun
    subst hrun
    exact hq
  | cons d rest ih =>
    unfold mkdirList at hrun
    cases hd : statFs fs d with
    | none =>
      rw [hd] at hrun
      have hne : d ≠ q := by
        intro he
        subst he
        rw [hd] at hq
        exact Option.noConfusion hq
      exact ih hrun (by rw [statFs_setFs_ne fs hne]; exact hq)
    | some n =>
      cases n with
      | file cc =>
        rw [hd] at hrun
        exact Option.noConfusion hrun
      | dir =>
        rw [hd] at hrun
        exact ih hrun hq

/-- C6: a download or delete entry whose name holds a dot-dot segment is
skipped with one log line: the filesystem is untouched, no download,
creation or removal event occurs, and the pass continues rather than
aborting. -/
theorem c6_dotdot_skip (env : Env) (pu cv dp : String) (e : FileEntry) (s : PatchState)
    (h : containsSubstr e.name ".." = true) :
    processDownloadEntry env pu cv dp e s =
      POutcome.ok { s with events := s.events ++ [Event.log (LogMsg.skipDotDot e.name)] } ∧
    processDeleteEntry env e s =
      { s with events := s.events ++ [Event.log (LogMsg.skipDotDot e.name)] } := by
  constructor
  · simp [processDownloadEntry, h]
  · simp [processDeleteEntry, h]

/-- Witness for C6 at a concrete traversal-unsafe entry. -/
theorem c6_dotdot_skip_witness :
    containsSubstr "../boot.ini" ".." = true ∧
    processDownloadEntry wEnv "https://p" "rof" "dp" (FileEntry.mk "../boot.ini" 1 "aa")
        (initPS [("x", FsNode.file "y")]) =
      POutcome.ok { initPS [("x", FsNode.file "y")] with
        events := [Event.log (LogMsg.skipDotDot "../boot.ini")] } ∧
    processDeleteEntry wEnv (FileEntry.mk "../boot.ini" 1 "aa")
        (initPS [("x", FsNode.file "y")]) =
      { initPS [("x", FsNode.file "y")] with
        events := [Event.log (LogMsg.skipDotDot "../boot.ini")] } := by
  refine ⟨by decide, ?_⟩
  have h := c6_dotdot_skip wEnv "https://p" "rof" "dp" (FileEntry.mk "../boot.ini" 1 "aa")
    (initPS [("x", FsNode.file "y")]) (by decide)
  simpa [initPS] using h

/-- C3: when the manifest version equals the recorded version the pass
returns at once: the filesystem is unchanged, the recorded version is not
rewritten, and the trace holds only log events, so no download, delete,
directory creation or config save happens. -/
theorem c3_version_match_noop (env : Env) (pu cv : String) (cfg : Config)
    (mapsFlag : Bool) (fl : FileList) (fs : FS)
    (h : cfg.fileListVersion = fl.version) :
    isOkOutcome (patch env pu cv cfg mapsFlag fl fs) = true ∧
    (stateOf (patch env pu cv cfg mapsFlag fl fs)).fs = fs ∧
    (stateOf (patch env pu cv cfg mapsFlag fl fs)).cfgVersion = cfg.fileListVersion ∧
    (stateOf (patch env pu cv cfg mapsFlag fl fs)).events.all isLogEvent = true := by
  unfold patch
  by_cases hl : fl.version.length < 8 <;>
    simp [h, hl, stateOf, isOkOutcome, isLogEvent, List.all, patchStart]

/-- Witness for C3 at a concrete manifest whose version matches the
recorded one while still listing pending downloads and deletes. -/
theorem c3_version_match_noop_witness :
    isOkOutcome (patch wEnv "https://p" "rof" (Config.mk "v1") false
      (FileList.mk "v1" "dp" [fooEntryUpper] [fooEntryLower]) [("old.dat", FsNode.file "z")]) =
        true ∧
    (stateOf (patch wEnv "https://p" "rof" (Config.mk "v1") false
      (FileList.mk "v1" "dp" [fooEntryUpper] [fooEntryLower]) [("old.dat", FsNode.file "z")])).fs =
        [("old.dat", FsNode.file "z")] ∧
    (stateOf (patch wEnv "https://p" "rof" (Config.mk "v1") false
      (FileList.mk "v1" "dp" [fooEntryUpper] [fooEntryLower])
      [("old.dat", FsNode.file "z")])).cfgVersion = (Config.mk "v1").fileListVersion ∧
    (stateOf (patch wEnv "https://p" "rof" (Config.mk "v1") false
      (FileList.mk "v1" "dp" [fooEntryUpper] [fooEntryLower])
      [("old.dat", FsNode.file "z")])).events.all isLogEvent = true :=
  c3_version_match_noop wEnv "https://p" "rof" (Config.mk "v1") false
    (FileList.mk "v1" "dp" [fooEntryUpper] [fooEntryLower]) [("old.dat", FsNode.file "z")] rfl

/-- C7: a delete entry without a traversal segment is handled by cases: an
absent path is skipped silently, a directory is logged and never removed,
a regular file is removed and the removal shows in a later existence
check, and a removal failure is logged without aborting; in every case
the loop proceeds to the next delete entry. -/
theorem c7_delete_entry_cases (env : Env) (e : FileEntry) (s : PatchState)
    (h : containsSubstr e.name ".." = false) :
    (statFs s.fs e.name = none → processDeleteEntry env e s = s) ∧
    (statFs s.fs e.name = some FsNode.dir →
      processDeleteEntry env e s =
        { s with events := s.events ++ [Event.log (LogMsg.skipDeleteDir e.name)] }) ∧
    (∀ c, statFs s.fs e.name = some (FsNode.file c) → env.removeFails e.name = false →
      processDeleteEntry env e s =
        { s with
          fs := removeFs s.fs e.name
          events := s.events ++ [Event.removeFile e.name,
            Event.log (LogMsg.removed e.name)] } ∧
      statFs (processDeleteEntry env e s).fs e.name = none) ∧
    (∀ c, statFs s.fs e.name = some (FsNode.file c) → env.removeFails e.name = true →
      processDeleteEntry env e s =
        { s with events := s.events ++ [Event.log (LogMsg.failedDelete e.name)] }) ∧
    (∀ rest, processDeletes env (e :: rest) s =
      processDeletes env rest (processDeleteEntry env e s)) := by
  refine ⟨?_, ?_, ?_, ?_, ?_⟩
  · intro hstat
    simp [processDeleteEntry, h, hstat]
  · intro hstat
    simp [processDeleteEntry, h, hstat]
  · intro c hstat hrf
    refine ⟨by simp [processDeleteEntry, h, hstat, hrf], ?_⟩
    simp [processDeleteEntry, h, hstat, hrf, statFs_removeFs_self]
  · intro c hstat hrf
    simp [processDeleteEntry, h, hstat, hrf]
  · intro rest
    simp [processDeletes]

/-- Witness for C7 at a concrete regular file delete that succeeds. -/
theorem c7_delete_entry_cases_witness :
    containsSubstr "old.dat" ".." = false ∧
    statFs (initPS [("old.dat", FsNode.file "z")]).fs "old.dat" =
      some (FsNode.file "z") ∧
    wEnv.removeFails "old.dat" = false ∧
    processDeleteEntry wEnv (FileEntry.mk "old.dat" 1 "aa")
        (initPS [("old.dat", FsNode.file "z")]) =
      { initPS [("old.dat", FsNode.file "z")] with
        fs := removeFs [("old.dat", FsNode.file "z")] "old.dat"
        events := [Event.removeFile "old.dat", Event.log (LogMsg.removed "old.dat")] } ∧
    statFs (processDeleteEntry wEnv (FileEntry.mk "old.dat" 1 "aa")
      (initPS [("old.dat", FsNode.file "z")])).fs "old.dat" = none := by
  have h := (c7_delete_entry_cases wEnv (FileEntry.mk "old.dat" 1 "aa")
    (initPS [("old.dat", FsNode.file "z")]) (by decide)).2.2.1 "z" (by decide) (by decide)
  refine ⟨by decide, by decide, by decide, ?_, h.2⟩
  rw [h.1]
  decide

/-- C10: for a non maps download entry whose HTTP request fails with a
transport error or a non 200 status, the destination file was already
created and truncated before the request was issued, so the pass aborts
leaving an empty file at the entry path in place of any previous content,
with the creation event strictly before the request event in the trace. -/
theorem c10_create_before_get (env : Env) (pu cv dp : String) (e : FileEntry)
    (s : PatchState)
    (hm : isMapsName e.name = false)
    (hf : env.http (dp ++ "/" ++ cv ++ "/" ++ e.name) = none ∨
      ∃ st body, env.http (dp ++ "/" ++ cv ++ "/" ++ e.name) = some (st, body) ∧
        st ≠ 200) :
    (∃ m, downloadPatchFile env pu cv dp e s = POutcome.fatal m
      { s with
        fs := setFs s.fs e.name (FsNode.file "")
        events := s.events ++ [Event.log (LogMsg.downloadingFile e.name e.size),
          Event.createFile e.name,
          Event.httpGetFile (dp ++ "/" ++ cv ++ "/" ++ e.name)] }) ∧
    statFs (setFs s.fs e.name (FsNode.file "")) e.name = some (FsNode.file "") := by
  refine ⟨?_, statFs_setFs_self s.fs e.name (FsNode.file "")⟩
  rcases hf with hnone | ⟨st, body, hsome, hst⟩
  · exact ⟨"download file", by simp [downloadPatchFile, hm, hnone]⟩
  · exact ⟨"file not 200", by simp [downloadPatchFile, hm, hsome, hst]⟩

/-- Witness for C10 at a concrete entry against the failing transport
environment, with previous content at the destination. -/
theorem c10_create_before_get_witness :
    isMapsName "data/foo.dat" = false ∧
    failEnv.http "dp/rof/data/foo.dat" = none ∧
    (∃ m, downloadPatchFile failEnv "https://p" "rof" "dp"
        (FileEntry.mk "data/foo.dat" 7 "aa")
        (initPS [("data/foo.dat", FsNode.file "precious")]) = POutcome.fatal m
      { initPS [("data/foo.dat", FsNode.file "precious")] with
        fs := setFs [("data/foo.dat", FsNode.file "precious")] "data/foo.dat"
          (FsNode.file "")
        events := [Event.log (LogMsg.downloadingFile "data/foo.dat" 7),
          Event.createFile "data/foo.dat", Event.httpGetFile "dp/rof/data/foo.dat"] }) ∧
    statFs (setFs [("data/foo.dat", FsNode.file "precious")] "data/foo.dat"
      (FsNode.file "")) "data/foo.dat" = some (FsNode.file "") := by
  have h := c10_create_before_get failEnv "https://p" "rof" "dp"
    (FileEntry.mk "data/foo.dat" 7 "aa")
    (initPS [("data/foo.dat", FsNode.file "precious")]) (by decide) (Or.inl rfl)
  exact ⟨by decide, rfl, h.1, h.2⟩

/-- C9: the Archive Expander writes each regular entry at the join of the
destination directory and the raw stored name, with no traversal check;
for the concrete archive entry named ../evil.txt extracted into the
current directory, the written path resolves to ../evil.txt, which leaves
the destination directory, and the write succeeds. -/
theorem c9_unpack_traversal :
    (∀ (dst : String) (fs fs1 : FS) (ze : ZipEntry), ze.isDir = false →
      mkdirAllFs fs (pathDirOf (pathJoin dst ze.name)) = some fs1 →
      unpackRun dst [ze] fs [] = UnpackRes.mk
        (setFs fs1 (pathJoin dst ze.name) (FsNode.file ze.content))
        [Event.mkdirAll (pathDirOf (pathJoin dst ze.name)),
         Event.createFile (pathJoin dst ze.name), Event.writeFile (pathJoin dst ze.name)]
        true) ∧
    containsSubstr evilZipEntry.name ".." = true ∧
    pathJoin "." evilZipEntry.name = "../evil.txt" ∧
    List.isPrefixOf "../".data (pathJoin "." evilZipEntry.name).data = true ∧
    statFs (unpackRun "." [evilZipEntry] [] []).fs "../evil.txt" =
      some (FsNode.file "X") ∧
    (unpackRun "." [evilZipEntry] [] []).ok = true := by
  refine ⟨?_, by decide, by decide, by decide, by decide, by decide⟩
  intro dst fs fs1 ze hdir hmk
  simp [unpackRun, hdir, hmk]

/-- Witness for C9 instantiating the write shape at the traversal entry
over the empty filesystem. -/
theorem c9_unpack_traversal_witness :
    evilZipEntry.isDir = false ∧
    mkdirAllFs ([] : FS) (pathDirOf (pathJoin "." evilZipEntry.name)) =
      some [("..", FsNode.dir)] ∧
    unpackRun "." [evilZipEntry] [] [] = UnpackRes.mk
      [("../evil.txt", FsNode.file "X"), ("..", FsNode.dir)]
      [Event.mkdirAll "..", Event.createFile "../evil.txt",
        Event.writeFile "../evil.txt"]
      true := by
  refine ⟨by decide, by decide, ?_⟩
  have h := c9_unpack_traversal.1 "." [] [("..", FsNode.dir)] evilZipEntry
    (by decide) (by decide)
  rw [h]
  decide

theorem countP_append_single (l : List Event) (e : Event) (p : Event → Bool) :
    List.countP p (l ++ [e]) = List.countP p l + (if p e then 1 else 0) := by
  simp [List.countP_append, List.countP_cons]

theorem isFileGet_log (m : LogMsg) : isFileGet (Event.log m) = false := rfl

theorem isFileGet_mkdirAll (p : String) : isFileGet (Event.mkdirAll p) = false := rfl

theorem isFileGet_createFile (p : String) : isFileGet (Event.createFile p) = false := rfl

theorem isFileGet_writeFile (p : String) : isFileGet (Event.writeFile p) = false := rfl

theorem isFileGet_removeFile (p : String) : isFileGet (Event.removeFile p) = false := rfl

theorem isFileGet_httpGetFile (u : String) : isFileGet (Event.httpGetFile u) = true := rfl

theorem isFileGet_httpGetMapsZip (u : String) :
    isFileGet (Event.httpGetMapsZip u) = false := rfl

theorem isFileGet_saveConfig (v : String) : isFileGet (Event.saveConfig v) = false := rfl

theorem isMapsZipGet_log (m : LogMsg) : isMapsZipGet (Event.log m) = false := rfl

theorem isMapsZipGet_mkdirAll (p : String) : isMapsZipGet (Event.mkdirAll p) = false := rfl

theorem isMapsZipGet_createFile (p : String) :
    isMapsZipGet (Event.createFile p) = false := rfl

theorem isMapsZipGet_writeFile (p : String) :
    isMapsZipGet (Event.writeFile p) = false := rfl

theorem isMapsZipGet_removeFile (p : String) :
    isMapsZipGet (Event.removeFile p) = false := rfl

theorem isMapsZipGet_httpGetFile (u : String) :
    isMapsZipGet (Event.httpGetFile u) = false := rfl

theorem isMapsZipGet_httpGetMapsZip (u : String) :
    isMapsZipGet (Event.httpGetMapsZip u) = true := rfl

theorem isMapsZipGet_saveConfig (v : String) :
    isMapsZipGet (Event.saveConfig v) = false := rfl

theorem isExeGet_log (m : LogMsg) : isExeGet (Event.log m) = false := rfl

theorem isExeGet_httpGetHash (u : String) : isExeGet (Event.httpGetHash u) = false := rfl

theorem isExeGet_httpGetExe (u : String) : isExeGet (Event.httpGetExe u) = true := rfl

theorem isExeGet_applySelfUpdate : isExeGet Event.applySelfUpdate = false := rfl

theorem mkdirStep_spec {e : FileEntry} {s s1 : PatchState}
    (hmk : mkdirStep e s = some s1) :
    s1.progressSize = s.progressSize ∧
    s1.isMapsSkippedBefore = s.isMapsSkippedBefore ∧
    s1.isMapsDownloaded = s.isMapsDownloaded ∧
    s1.totalDownloaded = s.totalDownloaded ∧
    s1.events.countP (fun ev => isFileGet ev) =
      s.events.countP (fun ev => isFileGet ev) ∧
    s1.events.countP (fun ev => isMapsZipGet ev) =
      s.events.countP (fun ev => isMapsZipGet ev) := by
  unfold mkdirStep at hmk
  by_cases hc : containsSubstr e.name "/" = true
  · rw [if_pos hc] at hmk
    cases hmd : mkdirAllFs s.fs (trimSuffix e.name (filepathBase e.name)) with
    | none => rw [hmd] at hmk; exact Option.noConfusion hmk
    | some fs' =>
      rw [hmd] at hmk
      have := Option.some.inj hmk
      subst this
      simp [countP_append_single, isFileGet_mkdirAll, isMapsZipGet_mkdirAll]
  · rw [if_neg hc] at hmk
    have := Option.some.inj hmk
    subst this
    exact ⟨rfl, rfl, rfl, rfl, rfl, rfl⟩

theorem mkdirStep_keeps_file {e : FileEntry} {s s1 : PatchState} {q c : String}
    (hmk : mkdirStep e s = some s1) (hq : statFs s.fs q = some (FsNode.file c)) :
    statFs s1.fs q = some (FsNode.file c) := by
  unfold mkdirStep at hmk
  by_cases hc : containsSubstr e.name "/" = true
  · rw [if_pos hc] at hmk
    cases hmd : mkdirAllFs s.fs (trimSuffix e.name (filepathBase e.name)) with
    | none => rw [hmd] at hmk; exact Option.noConfusion hmk
    | some fs' =>
      rw [hmd] at hmk
      have := Option.some.inj hmk
      subst this
      exact mkdirList_keeps_file hmd hq
  · rw [if_neg hc] at hmk
    have := Option.some.inj hmk
    subst this
    exact hq

/-- C1 counterexample: an entry whose file exists with a content digest
that equals the expected digest up to letter case only is not counted as
satisfied: the entry is downloaded (one per-file fetch in the trace) and
the file is overwritten with the response body. -/
theorem c1_case_insensitive_counterexample :
    strToLower (caseEnv.md5hex "") = strToLower fooEntryUpper.md5 ∧
    statFs (initPS [("foo.dat", FsNode.file "")]).fs fooEntryUpper.name =
      some (FsNode.file "") ∧
    (stateOf (processDownloadEntry caseEnv "https://p" "rof" "dp" fooEntryUpper
      (initPS [("foo.dat", FsNode.file "")]))).events.countP
        (fun ev => isFileGet ev) = 1 ∧
    statFs (stateOf (processDownloadEntry caseEnv "https://p" "rof" "dp" fooEntryUpper
      (initPS [("foo.dat", FsNode.file "")]))).fs "foo.dat" =
      some (FsNode.file "NEW") := by
  decide

/-- C1 amended: the synchronizer compares the computed digest with the
entry digest by exact case sensitive string equality; when the digests
are exactly equal the entry is counted as satisfied (the progress counter
advances by the entry size), no download fetch occurs for it and the file
content is untouched. -/
theorem c1_exact_hash_skip (env : Env) (pu cv dp : String) (e : FileEntry)
    (s s1 : PatchState) (c : String)
    (hdd : containsSubstr e.name ".." = false)
    (hmk : mkdirStep e s = some s1)
    (hstat : statFs s1.fs e.name = some (FsNode.file c))
    (hhash : env.md5hex c = e.md5) :
    isOkOutcome (processDownloadEntry env pu cv dp e s) = true ∧
    (stateOf (processDownloadEntry env pu cv dp e s)).events.countP
      (fun ev => isFileGet ev) = s.events.countP (fun ev => isFileGet ev) ∧
    (stateOf (processDownloadEntry env pu cv dp e s)).events.countP
      (fun ev => isMapsZipGet ev) = s.events.countP (fun ev => isMapsZipGet ev) ∧
    statFs (stateOf (processDownloadEntry env pu cv dp e s)).fs e.name =
      some (FsNode.file c) ∧
    (stateOf (processDownloadEntry env pu cv dp e s)).progressSize =
      s.progressSize + e.size := by
  obtain ⟨hps, hskip, hmd, htd, hcf, hcm⟩ := mkdirStep_spec hmk
  have hrun : processDownloadEntry env pu cv dp e s =
      (if isMapsName e.name then
        (if s1.isMapsSkippedBefore then
          POutcome.ok { s1 with progressSize := s1.progressSize + e.size }
        else
          POutcome.ok { s1 with
            progressSize := s1.progressSize + e.size
            isMapsSkippedBefore := true
            events := s1.events ++ [Event.log (LogMsg.skippedUpToDate e.name)] })
      else
        POutcome.ok { s1 with
          progressSize := s1.progressSize + e.size
          events := s1.events ++ [Event.log (LogMsg.skippedUpToDate e.name)] }) := by
    simp [processDownloadEntry, hdd, hmk, hstat, md5Checksum, hhash]
  rw [hrun]
  by_cases hmaps : isMapsName e.name = true
  · by_cases hsk : s1.isMapsSkippedBefore = true
    · simp [hmaps, hsk, stateOf, isOkOutcome, hps, hcf, hcm, hstat]
    · simp [hmaps, hsk, stateOf, isOkOutcome, hps, hcf, hcm, hstat,
        countP_append_single, isFileGet_log, isMapsZipGet_log]
  · simp [hmaps, stateOf, isOkOutcome, hps, hcf, hcm, hstat,
      countP_append_single, isFileGet_log, isMapsZipGet_log]

/-- Witness for C1 at a concrete entry whose expected digest exactly
equals the computed lowercase digest. -/
theorem c1_exact_hash_skip_witness :
    isOkOutcome (processDownloadEntry caseEnv "https://p" "rof" "dp" fooEntryLower
      (initPS [("foo.dat", FsNode.file "")])) = true ∧
    (stateOf (processDownloadEntry caseEnv "https://p" "rof" "dp" fooEntryLower
      (initPS [("foo.dat", FsNode.file "")]))).events.countP
      (fun ev => isFileGet ev) =
      (initPS [("foo.dat", FsNode.file "")]).events.countP (fun ev => isFileGet ev) ∧
    (stateOf (processDownloadEntry caseEnv "https://p" "rof" "dp" fooEntryLower
      (initPS [("foo.dat", FsNode.file "")]))).events.countP
      (fun ev => isMapsZipGet ev) =
      (initPS [("foo.dat", FsNode.file "")]).events.countP (fun ev => isMapsZipGet ev) ∧
    statFs (stateOf (processDownloadEntry caseEnv "https://p" "rof" "dp" fooEntryLower
      (initPS [("foo.dat", FsNode.file "")]))).fs fooEntryLower.name =
      some (FsNode.file "") ∧
    (stateOf (processDownloadEntry caseEnv "https://p" "rof" "dp" fooEntryLower
      (initPS [("foo.dat", FsNode.file "")]))).progressSize =
      (initPS [("foo.dat", FsNode.file "")]).progressSize + fooEntryLower.size :=
  c1_exact_hash_skip caseEnv "https://p" "rof" "dp" fooEntryLower
    (initPS [("foo.dat", FsNode.file "")]) (initPS [("foo.dat", FsNode.file "")]) ""
    (by decide) (by decide) (by decide) (by decide)

/-- C2: the sentinel check of the self-updater is dead code: when the
remote hash endpoint answers exactly the sentinel text Not Found, which
equals NOT FOUND up to letter case, the update is not skipped; the
binary endpoint is fetched once and the running executable is replaced,
because the code uppercases the remote value before comparing it with the
mixed case literal. -/
theorem c2_sentinel_not_skipped :
    strToUpper (trimSpace "Not Found") = "NOT FOUND" ∧
    (suStateOf (selfUpdate sentinelEnv "https://p" "launcheq" "launcheq.exe"
      [("launcheq.exe", FsNode.file "OLD")])).events.countP
        (fun ev => isExeGet ev) = 1 ∧
    statFs (suStateOf (selfUpdate sentinelEnv "https://p" "launcheq" "launcheq.exe"
      [("launcheq.exe", FsNode.file "OLD")])).fs "launcheq.exe" =
      some (FsNode.file "NEWBIN") := by
  decide

theorem chUpper_ne_o (c : Char) : chUpper c ≠ 'o' := by
  unfold chUpper
  by_cases h : 97 ≤ c.toNat ∧ c.toNat ≤ 122
  · rw [if_pos h]
    obtain ⟨h1, h2⟩ := h
    generalize hg : c.toNat = n at h1 h2
    interval_cases n <;> decide
  · rw [if_neg h]
    intro he
    subst he
    exact h (by decide)

theorem strToUpper_ne_sentinel (s : String) : strToUpper s ≠ "Not Found" := by
  intro h
  have hd : s.data.map chUpper = "Not Found".data := by
    simpa [strToUpper] using congrArg String.data h
  have hmem : 'o' ∈ s.data.map chUpper := by rw [hd]; decide
  obtain ⟨c, _, hc⟩ := List.mem_map.mp hmem
  exact chUpper_ne_o c hc

theorem removeCleanup_stat (env : Env) (s : SuState) {p q : String} (h : p ≠ q) :
    statFs (removeCleanup env s p).fs q = statFs s.fs q := by
  unfold removeCleanup
  cases hst : statFs s.fs p with
  | none => simp
  | some n =>
    by_cases hrf : env.removeFails p = true <;>
      simp [hrf, statFs_removeFs_ne s.fs h]

theorem removeCleanup_exeGet (env : Env) (s : SuState) (p : String) :
    List.countP (fun ev => isExeGet ev) (removeCleanup env s p).events =
      List.countP (fun ev => isExeGet ev) s.events := by
  unfold removeCleanup
  cases hst : statFs s.fs p with
  | none => simp
  | some n =>
    by_cases hrf : env.removeFails p = true <;>
      simp [hrf, countP_append_single, isExeGet_log]

/-- C4: after both hashes are normalized by trimming and uppercasing, an
equal pair means no binary download occurs and the executable bytes are
unchanged, while a differing pair whose remote value is not the sentinel
means exactly one binary fetch occurs and the response body replaces the
executable in place. -/
theorem c4_selfupdate_gate (env : Env) (pu bn exe : String) (fs : FS) (ec data : String)
    (hb1 : bn ++ ".bat" ≠ exe)
    (hb2 : "." ++ bn ++ ".exe.old" ≠ exe)
    (hfile : statFs fs exe = some (FsNode.file ec))
    (hhash : env.http (pu ++ "/launcheq-hash.txt") = some (200, data)) :
    (strToUpper (trimSpace (env.md5hex ec)) = strToUpper (trimSpace data) →
      suIsOk (selfUpdate env pu bn exe fs) = true ∧
      List.countP (fun ev => isExeGet ev)
        (suStateOf (selfUpdate env pu bn exe fs)).events = 0 ∧
      statFs (suStateOf (selfUpdate env pu bn exe fs)).fs exe =
        some (FsNode.file ec)) ∧
    (∀ nb, strToUpper (trimSpace (env.md5hex ec)) ≠ strToUpper (trimSpace data) →
      strToUpper (trimSpace data) ≠ "NOT FOUND" →
      env.http (pu ++ "/" ++ bn ++ ".exe") = some (200, nb) →
      suIsOk (selfUpdate env pu bn exe fs) = true ∧
      List.countP (fun ev => isExeGet ev)
        (suStateOf (selfUpdate env pu bn exe fs)).events = 1 ∧
      statFs (suStateOf (selfUpdate env pu bn exe fs)).fs exe =
        some (FsNode.file nb)) := by
  have hstat2 : statFs (removeCleanup env (removeCleanup env (SuState.mk fs [])
      (bn ++ ".bat")) ("." ++ bn ++ ".exe.old")).fs exe = some (FsNode.file ec) := by
    rw [removeCleanup_stat env _ hb2, removeCleanup_stat env _ hb1]
    exact hfile
  constructor
  · intro heq
    by_cases hnf : strToUpper (trimSpace data) = "Not Found"
    · refine ⟨?_, ?_, ?_⟩ <;>
        simp [selfUpdate, md5Checksum, hstat2, hhash, hnf, suIsOk, suStateOf,
          countP_append_single, List.countP_append, List.countP_cons, isExeGet_log,
          isExeGet_httpGetHash, removeCleanup_exeGet]
    · refine ⟨?_, ?_, ?_⟩ <;>
        simp [selfUpdate, md5Checksum, hstat2, hhash, hnf, heq, suIsOk, suStateOf,
          countP_append_single, List.countP_append, List.countP_cons, isExeGet_log,
          isExeGet_httpGetHash, removeCleanup_exeGet]
  · intro nb hne hsent hexe
    have hnf : strToUpper (trimSpace data) ≠ "Not Found" := strToUpper_ne_sentinel _
    refine ⟨?_, ?_, ?_⟩ <;>
      simp [selfUpdate, md5Checksum, hstat2, hhash, hnf, hne, hexe, suIsOk, suStateOf,
        countP_append_single, List.countP_append, List.countP_cons, isExeGet_log,
        isExeGet_httpGetHash, isExeGet_httpGetExe, isExeGet_applySelfUpdate,
        removeCleanup_exeGet, statFs_setFs_self]

theorem dpfMapsTail_skipFlag (r : UnpackRes) (s3 : PatchState) :
    (stateOf (dpfMapsTail r s3)).isMapsSkippedBefore = s3.isMapsSkippedBefore := by
  unfold dpfMapsTail
  split <;> rfl

theorem dpf_skipFlag (env : Env) (pu cv dp : String) (e : FileEntry) (s : PatchState) :
    (stateOf (downloadPatchFile env pu cv dp e s)).isMapsSkippedBefore =
      s.isMapsSkippedBefore := by
  unfold downloadPatchFile
  by_cases hb : (!s.isMapsDownloaded && isMapsName e.name) = true
  · simp only [hb, if_true]
    cases henv : env.http (pu ++ "/maps.zip") with
    | none => rfl
    | some pr =>
      obtain ⟨st, body⟩ := pr
      by_cases hst : st = 200
      · have hne : ¬(st ≠ 200) := fun hx => hx hst
        simp only [if_neg hne]
        cases hz : env.parseZip body with
        | none => rfl
        | some zs =>
          split <;> first | rfl | (rw [dpfMapsTail_skipFlag])
      · simp only [if_pos hst]
        rfl
  · simp only [Bool.not_eq_true] at hb
    simp only [hb, if_false]
    cases henv : env.http (dp ++ "/" ++ cv ++ "/" ++ e.name) with
    | none => rfl
    | some pr =>
      obtain ⟨st, body⟩ := pr
      by_cases hst : st = 200
      · have hne : ¬(st ≠ 200) := fun hx => hx hst
        simp only [if_neg hne]
        rfl
      · simp only [if_pos hst]
        rfl

theorem pde_skipFlag_mono (env : Env) (pu cv dp : String) (e : FileEntry) (s : PatchState)
    (h : s.isMapsSkippedBefore = true) :
    (stateOf (processDownloadEntry env pu cv dp e s)).isMapsSkippedBefore = true := by
  unfold processDownloadEntry
  by_cases hdd : containsSubstr e.name ".." = true
  · simp [hdd, stateOf, h]
  · simp only [Bool.not_eq_true] at hdd
    simp only [hdd, if_false]
    cases hmk : mkdirStep e s with
    | none => simpa [stateOf] using h
    | some s1 =>
      have hs1 : s1.isMapsSkippedBefore = true := by
        rw [(mkdirStep_spec hmk).2.1]
        exact h
      cases hstat : statFs s1.fs e.name with
      | none =>
        have hd := dpf_skipFlag env pu cv dp e s1
        cases hdl : downloadPatchFile env pu cv dp e s1 with
        | ok s2 =>
          rw [hdl] at hd
          simp [stateOf] at hd
          simp [stateOf, hstat, hdl, hd, hs1]
        | fatal m s2 =>
          rw [hdl] at hd
          simp [stateOf] at hd
          simp [stateOf, hstat, hdl, hd, hs1]
      | some nd =>
        cases hmd : md5Checksum env s1.fs e.name with
        | none => simp [stateOf, hstat, hmd, hs1]
        | some hash =>
          by_cases hh : hash = e.md5
          · by_cases hm : isMapsName e.name = true
            · simp [stateOf, hstat, hmd, hh, hm, hs1]
            · simp only [Bool.not_eq_true] at hm
              simp [stateOf, hstat, hmd, hh, hm, hs1]
          · have hd := dpf_skipFlag env pu cv dp e s1
            cases hdl : downloadPatchFile env pu cv dp e s1 with
            | ok s2 =>
              rw [hdl] at hd
              simp [stateOf] at hd
              simp [stateOf, hstat, hmd, hh, hdl, hd, hs1]
            | fatal m s2 =>
              rw [hdl] at hd
              simp [stateOf] at hd
              simp [stateOf, hstat, hmd, hh, hdl, hd, hs1]

/-- C8: in the download loop, an up to date entry under maps is logged as
skipped when the suppression flag is still unset, and the flag is then
set; an up to date maps entry seen with the flag already set is counted
(the progress counter advances) with no log line appended; an up to date
entry not under maps is always logged; and the suppression flag, once
set, stays set across any later entry of the pass. -/
theorem c8_maps_skip_log (env : Env) (pu cv dp : String) :
    (∀ (e : FileEntry) (s s1 : PatchState) (c : String),
      containsSubstr e.name ".." = false →
      mkdirStep e s = some s1 →
      statFs s1.fs e.name = some (FsNode.file c) →
      env.md5hex c = e.md5 →
      (isMapsName e.name = true → s1.isMapsSkippedBefore = false →
        processDownloadEntry env pu cv dp e s =
          POutcome.ok { s1 with
            progressSize := s1.progressSize + e.size
            isMapsSkippedBefore := true
            events := s1.events ++ [Event.log (LogMsg.skippedUpToDate e.name)] }) ∧
      (isMapsName e.name = true → s1.isMapsSkippedBefore = true →
        processDownloadEntry env pu cv dp e s =
          POutcome.ok { s1 with progressSize := s1.progressSize + e.size }) ∧
      (isMapsName e.name = false →
        processDownloadEntry env pu cv dp e s =
          POutcome.ok { s1 with
            progressSize := s1.progressSize + e.size
            events := s1.events ++ [Event.log (LogMsg.skippedUpToDate e.name)] })) ∧
    (∀ (e : FileEntry) (s : PatchState), s.isMapsSkippedBefore = true →
      (stateOf (processDownloadEntry env pu cv dp e s)).isMapsSkippedBefore = true) := by
  constructor
  · intro e s s1 c hdd hmk hstat hhash
    refine ⟨?_, ?_, ?_⟩
    · intro hm hsk
      simp [processDownloadEntry, hdd, hmk, hstat, md5Checksum, hhash, hm, hsk]
    · intro hm hsk
      simp [processDownloadEntry, hdd, hmk, hstat, md5Checksum, hhash, hm, hsk]
    · intro hm
      simp [processDownloadEntry, hdd, hmk, hstat, md5Checksum, hhash, hm]
  · exact fun e s h => pde_skipFlag_mono env pu cv dp e s h

/-- Witness for C8 over two up to date maps entries processed in order
and one up to date plain entry: the first maps entry is logged and sets
the flag, the second is counted silently, the plain entry is logged. -/
theorem c8_maps_skip_log_witness :
    mkdirStep mapsEntryA (initPS mapsFs) = some mapsPS1 ∧
    statFs mapsPS1.fs mapsEntryA.name = some (FsNode.file "") ∧
    caseEnv.md5hex "" = mapsEntryA.md5 ∧
    isMapsName mapsEntryA.name = true ∧
    mapsPS1.isMapsSkippedBefore = false ∧
    processDownloadEntry caseEnv "https://p" "rof" "dp" mapsEntryA (initPS mapsFs) =
      POutcome.ok mapsPS2 ∧
    mkdirStep mapsEntryB mapsPS2 = some mapsPS2b ∧
    mapsPS2b.isMapsSkippedBefore = true ∧
    processDownloadEntry caseEnv "https://p" "rof" "dp" mapsEntryB mapsPS2 =
      POutcome.ok { mapsPS2b with
        progressSize := mapsPS2b.progressSize + mapsEntryB.size } ∧
    isMapsName fooEntryLower.name = false ∧
    processDownloadEntry caseEnv "https://p" "rof" "dp" fooEntryLower
        (initPS [("foo.dat", FsNode.file "")]) =
      POutcome.ok { initPS [("foo.dat", FsNode.file "")] with
        progressSize := (initPS [("foo.dat", FsNode.file "")]).progressSize +
          fooEntryLower.size
        events := [Event.log (LogMsg.skippedUpToDate fooEntryLower.name)] } ∧
    (stateOf (processDownloadEntry caseEnv "https://p" "rof" "dp" mapsEntryB
      mapsPS2)).isMapsSkippedBefore = true := by
  have harmA := ((c8_maps_skip_log caseEnv "https://p" "rof" "dp").1 mapsEntryA
    (initPS mapsFs) mapsPS1 "" (by decide) (by decide) (by decide) (by decide)).1
    (by decide) (by decide)
  have harmB := ((c8_maps_skip_log caseEnv "https://p" "rof" "dp").1 mapsEntryB
    mapsPS2 mapsPS2b "" (by decide) (by decide) (by decide) (by decide)).2.1
    (by decide) (by decide)
  have harmC := ((c8_maps_skip_log caseEnv "https://p" "rof" "dp").1 fooEntryLower
    (initPS [("foo.dat", FsNode.file "")]) (initPS [("foo.dat", FsNode.file "")]) ""
    (by decide) (by decide) (by decide) (by decide)).2.2 (by decide)
  have hmono := (c8_maps_skip_log caseEnv "https://p" "rof" "dp").2 mapsEntryB
    mapsPS2 (by decide)
  refine ⟨by decide, by decide, by decide, by decide, by decide, ?_, by decide,
    by decide, ?_, by decide, ?_, hmono⟩
  · rw [harmA]; decide
  · rw [harmB]
  · rw [harmC]; decide

/-- Witness for C4 at concrete equal and differing hash scenarios. -/
theorem c4_selfupdate_gate_witness :
    (suIsOk (selfUpdate equalHashEnv "https://p" "launcheq" "launcheq.exe"
      [("launcheq.exe", FsNode.file "OLD")]) = true ∧
     List.countP (fun ev => isExeGet ev)
       (suStateOf (selfUpdate equalHashEnv "https://p" "launcheq" "launcheq.exe"
         [("launcheq.exe", FsNode.file "OLD")])).events = 0 ∧
     statFs (suStateOf (selfUpdate equalHashEnv "https://p" "launcheq" "launcheq.exe"
       [("launcheq.exe", FsNode.file "OLD")])).fs "launcheq.exe" =
       some (FsNode.file "OLD")) ∧
    (suIsOk (selfUpdate diffHashEnv "https://p" "launcheq" "launcheq.exe"
      [("launcheq.exe", FsNode.file "OLD")]) = true ∧
     List.countP (fun ev => isExeGet ev)
       (suStateOf (selfUpdate diffHashEnv "https://p" "launcheq" "launcheq.exe"
         [("launcheq.exe", FsNode.file "OLD")])).events = 1 ∧
     statFs (suStateOf (selfUpdate diffHashEnv "https://p" "launcheq" "launcheq.exe"
       [("launcheq.exe", FsNode.file "OLD")])).fs "launcheq.exe" =
       some (FsNode.file "NEWBIN")) := by
  constructor
  · exact (c4_selfupdate_gate equalHashEnv "https://p" "launcheq" "launcheq.exe"
      [("launcheq.exe", FsNode.file "OLD")] "OLD" "0123456789ABCDEF0123456789ABCDEF"
      (by decide) (by decide) (by decide) (by decide)).1 (by decide)
  · exact (c4_selfupdate_gate diffHashEnv "https://p" "launcheq" "launcheq.exe"
      [("launcheq.exe", FsNode.file "OLD")] "OLD" "ffffffffffffffffffffffffffffffff"
      (by decide) (by decide) (by decide) (by decide)).2 "NEWBIN" (by decide)
      (by decide) (by decide)

theorem mapsZipGetCount_append (l1 l2 : List Event) :
    mapsZipGetCount (l1 ++ l2) = mapsZipGetCount l1 + mapsZipGetCount l2 :=
  List.countP_append _ _ _

theorem mapsZipGetCount_cons (ev : Event) (l : List Event) :
    mapsZipGetCount (ev :: l) = mapsZipGetCount l + (if isMapsZipGet ev then 1 else 0) :=
  List.countP_cons _ _ _

theorem mapsZipGetCount_nil : mapsZipGetCount [] = 0 := rfl

theorem unpackRun_mapsCount (dst : String) (zs : List ZipEntry) :
    ∀ (fs : FS) (evs : List Event),
    mapsZipGetCount (unpackRun dst zs fs evs).events = mapsZipGetCount evs := by
  induction zs with
  | nil => intro fs evs; rfl
  | cons ze rest ih =>
    intro fs evs
    unfold unpackRun
    cases hd : ze.isDir
    · cases hmk : mkdirAllFs fs (pathDirOf (pathJoin dst ze.name)) with
      | none => simp [hmk]
      | some fs' =>
        simp [hmk, ih, mapsZipGetCount_append, mapsZipGetCount_cons, mapsZipGetCount_nil,
          isMapsZipGet_mkdirAll, isMapsZipGet_createFile, isMapsZipGet_writeFile]
    · cases hmk : mkdirAllFs fs (pathJoin dst ze.name) with
      | none => simp [hmk]
      | some fs' =>
        simp [hmk, ih, mapsZipGetCount_append, mapsZipGetCount_cons, mapsZipGetCount_nil,
          isMapsZipGet_mkdirAll]

theorem dpfMapsTail_mapsOutInv (r : UnpackRes) (s3 : PatchState)
    (hcount : mapsZipGetCount r.events ≤ 1) : mapsOutInv (dpfMapsTail r s3) := by
  unfold dpfMapsTail
  split
  · exact ⟨hcount, by intro hf; simp at hf⟩
  · exact hcount

theorem dpf_mapsInv (env : Env) (pu cv dp : String) (e : FileEntry) (s : PatchState)
    (h : mapsInvariant s) : mapsOutInv (downloadPatchFile env pu cv dp e s) := by
  obtain ⟨h1, h2⟩ := h
  unfold downloadPatchFile
  by_cases hb : (!s.isMapsDownloaded && isMapsName e.name) = true
  · have hflag : s.isMapsDownloaded = false := by
      cases hmd : s.isMapsDownloaded
      · rfl
      · rw [hmd] at hb
        simp at hb
    have hzero : mapsZipGetCount s.events = 0 := h2 hflag
    rw [hb, if_pos rfl]
    cases henv : env.http (pu ++ "/maps.zip") with
    | none =>
      simp only [henv, mapsOutInv]
      simp [mapsZipGetCount_append, mapsZipGetCount_cons, mapsZipGetCount_nil,
        isMapsZipGet_log, isMapsZipGet_httpGetMapsZip, hzero]
    | some pr =>
      obtain ⟨st, body⟩ := pr
      by_cases hst : st = 200
      · have hne : ¬(st ≠ 200) := fun hx => hx hst
        cases hz : env.parseZip body with
        | none =>
          simp only [henv, if_neg hne, hz, mapsOutInv]
          simp [mapsZipGetCount_append, mapsZipGetCount_cons, mapsZipGetCount_nil,
            isMapsZipGet_log, isMapsZipGet_httpGetMapsZip, isMapsZipGet_createFile,
            isMapsZipGet_writeFile, hzero]
        | some zs =>
          simp only [henv, if_neg hne, hz]
          refine dpfMapsTail_mapsOutInv _ _ ?_
          rw [unpackRun_mapsCount]
          simp [mapsZipGetCount_append, mapsZipGetCount_cons, mapsZipGetCount_nil,
            isMapsZipGet_log, isMapsZipGet_httpGetMapsZip, isMapsZipGet_createFile,
            isMapsZipGet_writeFile, hzero]
      · simp only [henv, if_pos hst, mapsOutInv]
        simp [mapsZipGetCount_append, mapsZipGetCount_cons, mapsZipGetCount_nil,
          isMapsZipGet_log, isMapsZipGet_httpGetMapsZip, hzero]
  · simp only [Bool.not_eq_true] at hb
    rw [hb, if_neg (by decide : ¬(false = true))]
    cases henv : env.http (dp ++ "/" ++ cv ++ "/" ++ e.name) with
    | none =>
      simp only [henv, mapsOutInv]
      simpa [mapsZipGetCount_append, mapsZipGetCount_cons, mapsZipGetCount_nil,
        isMapsZipGet_log, isMapsZipGet_createFile, isMapsZipGet_httpGetFile] using h1
    | some pr =>
      obtain ⟨st, body⟩ := pr
      by_cases hst : st = 200
      · have hne : ¬(st ≠ 200) := fun hx => hx hst
        simp only [henv, if_neg hne, mapsOutInv]
        refine ⟨?_, ?_⟩
        · simpa [mapsZipGetCount_append, mapsZipGetCount_cons, mapsZipGetCount_nil,
            isMapsZipGet_log, isMapsZipGet_createFile, isMapsZipGet_httpGetFile,
            isMapsZipGet_writeFile] using h1
        · intro hf
          simp only at hf
          simpa [mapsZipGetCount_append, mapsZipGetCount_cons, mapsZipGetCount_nil,
            isMapsZipGet_log, isMapsZipGet_createFile, isMapsZipGet_httpGetFile,
            isMapsZipGet_writeFile] using h2 hf
      · simp only [henv, if_pos hst, mapsOutInv]
        simpa [mapsZipGetCount_append, mapsZipGetCount_cons, mapsZipGetCount_nil,
          isMapsZipGet_log, isMapsZipGet_createFile, isMapsZipGet_httpGetFile] using h1

theorem pde_mapsInv (env : Env) (pu cv dp : String) (e : FileEntry) (s : PatchState)
    (h : mapsInvariant s) : mapsOutInv (processDownloadEntry env pu cv dp e s) := by
  unfold processDownloadEntry
  by_cases hdd : containsSubstr e.name ".." = true
  · rw [hdd, if_pos rfl]
    refine ⟨?_, ?_⟩
    · simpa [mapsZipGetCount_append, mapsZipGetCount_cons, mapsZipGetCount_nil,
        isMapsZipGet_log] using h.1
    · intro hf
      simp only at hf
      simpa [mapsZipGetCount_append, mapsZipGetCount_cons, mapsZipGetCount_nil,
        isMapsZipGet_log] using h.2 hf
  · simp only [Bool.not_eq_true] at hdd
    rw [hdd, if_neg (by decide : ¬(false = true))]
    cases hmk : mkdirStep e s with
    | none =>
      simp only [hmk, mapsOutInv]
      exact h.1
    | some s1 =>
      obtain ⟨hps, hskip, hmd, htd, hcf, hcm⟩ := mkdirStep_spec hmk
      have hinv1 : mapsInvariant s1 := by
        refine ⟨?_, ?_⟩
        · calc mapsZipGetCount s1.events = mapsZipGetCount s.events := hcm
          _ ≤ 1 := h.1
        · intro hf
          rw [hmd] at hf
          calc mapsZipGetCount s1.events = mapsZipGetCount s.events := hcm
          _ = 0 := h.2 hf
      simp only [hmk]
      cases hstat : statFs s1.fs e.name with
      | none =>
        simp only [hstat]
        have hd := dpf_mapsInv env pu cv dp e s1 hinv1
        cases hdl : downloadPatchFile env pu cv dp e s1 with
        | ok s2 =>
          rw [hdl] at hd
          simp only [hdl]
          refine ⟨?_, ?_⟩
          · simpa using hd.1
          · intro hf
            simp only at hf
            simpa using hd.2 hf
        | fatal m s2 =>
          rw [hdl] at hd
          simp only [hdl, mapsOutInv]
          exact hd
      | some nd =>
        simp only [hstat]
        cases hmd5 : md5Checksum env s1.fs e.name with
        | none =>
          simp only [hmd5, mapsOutInv]
          exact hinv1.1
        | some hash =>
          simp only [hmd5]
          by_cases hh : hash = e.md5
          · rw [if_pos hh]
            by_cases hm : isMapsName e.name = true
            · rw [hm, if_pos rfl]
              by_cases hsk : s1.isMapsSkippedBefore = true
              · rw [if_pos (show ({ s1 with
                    progressSize := s1.progressSize + e.size } :
                    PatchState).isMapsSkippedBefore = true from hsk)]
                exact ⟨hinv1.1, fun hf => hinv1.2 hf⟩
              · rw [if_neg (show ¬({ s1 with
                    progressSize := s1.progressSize + e.size } :
                    PatchState).isMapsSkippedBefore = true from hsk)]
                refine ⟨?_, ?_⟩
                · simpa [mapsZipGetCount_append, mapsZipGetCount_cons,
                    mapsZipGetCount_nil, isMapsZipGet_log] using hinv1.1
                · intro hf
                  simp only at hf
                  simpa [mapsZipGetCount_append, mapsZipGetCount_cons,
                    mapsZipGetCount_nil, isMapsZipGet_log] using hinv1.2 hf
            · simp only [Bool.not_eq_true] at hm
              rw [hm, if_neg (by decide : ¬(false = true))]
              refine ⟨?_, ?_⟩
              · simpa [mapsZipGetCount_append, mapsZipGetCount_cons,
                  mapsZipGetCount_nil, isMapsZipGet_log] using hinv1.1
              · intro hf
                simp only at hf
                simpa [mapsZipGetCount_append, mapsZipGetCount_cons,
                  mapsZipGetCount_nil, isMapsZipGet_log] using hinv1.2 hf
          · rw [if_neg hh]
            have hd := dpf_mapsInv env pu cv dp e s1 hinv1
            cases hdl : downloadPatchFile env pu cv dp e s1 with
            | ok s2 =>
              rw [hdl] at hd
              simp only [hdl]
              refine ⟨?_, ?_⟩
              · simpa using hd.1
              · intro hf
                simp only at hf
                simpa using hd.2 hf
            | fatal m s2 =>
              rw [hdl] at hd
              simp only [hdl, mapsOutInv]
              exact hd

theorem processDownloads_mapsInv (env : Env) (pu cv dp : String)
    (es : List FileEntry) : ∀ s : PatchState, mapsInvariant s →
    mapsOutInv (processDownloads env pu cv dp es s) := by
  induction es with
  | nil => intro s h; exact h
  | cons e rest ih =>
    intro s h
    unfold processDownloads
    have hp := pde_mapsInv env pu cv dp e s h
    cases hdl : processDownloadEntry env pu cv dp e s with
    | ok s' =>
      rw [hdl] at hp
      simp only [hdl]
      exact ih s' hp
    | fatal m s' =>
      rw [hdl] at hp
      simp only [hdl, mapsOutInv]
      exact hp

theorem processDeleteEntry_mapsFacts (env : Env) (e : FileEntry) (s : PatchState) :
    mapsZipGetCount (processDeleteEntry env e s).events = mapsZipGetCount s.events ∧
    (processDeleteEntry env e s).isMapsDownloaded = s.isMapsDownloaded := by
  unfold processDeleteEntry
  by_cases hdd : containsSubstr e.name ".." = true
  · rw [hdd, if_pos rfl]
    simp [mapsZipGetCount_append, mapsZipGetCount_cons, mapsZipGetCount_nil,
      isMapsZipGet_log]
  · simp only [Bool.not_eq_true] at hdd
    rw [hdd, if_neg (by decide : ¬(false = true))]
    cases hstat : statFs s.fs e.name with
    | none => simp [hstat]
    | some nd =>
      cases nd with
      | dir =>
        simp [hstat, mapsZipGetCount_append, mapsZipGetCount_cons, mapsZipGetCount_nil,
          isMapsZipGet_log]
      | file c =>
        by_cases hrf : env.removeFails e.name = true
        · simp [hstat, hrf, mapsZipGetCount_append, mapsZipGetCount_cons,
            mapsZipGetCount_nil, isMapsZipGet_log]
        · simp [hstat, hrf, mapsZipGetCount_append, mapsZipGetCount_cons,
            mapsZipGetCount_nil, isMapsZipGet_log, isMapsZipGet_removeFile]

theorem processDeletes_mapsInv (env : Env) (ds : List FileEntry) :
    ∀ s : PatchState, mapsInvariant s → mapsInvariant (processDeletes env ds s) := by
  induction ds with
  | nil => intro s h; exact h
  | cons e rest ih =>
    intro s h
    unfold processDeletes
    refine ih _ ⟨?_, ?_⟩
    · rw [(processDeleteEntry_mapsFacts env e s).1]
      exact h.1
    · intro hx
      rw [(processDeleteEntry_mapsFacts env e s).1]
      refine h.2 ?_
      rw [← (processDeleteEntry_mapsFacts env e s).2]
      exact hx

theorem patchFinish_count (env : Env) (fl : FileList) (out : POutcome)
    (h : mapsOutInv out) :
    mapsZipGetCount (stateOf (patchFinish env fl out)).events ≤ 1 := by
  cases out with
  | fatal m s => exact h
  | ok s2 =>
    have hdel := processDeletes_mapsInv env fl.deletes s2 h
    simp only [patchFinish, stateOf]
    simpa [mapsZipGetCount_append, mapsZipGetCount_cons, mapsZipGetCount_nil,
      isMapsZipGet_saveConfig] using hdel.1

/-- C5: over one full synchronization pass, whatever the manifest, the
environment, the starting filesystem and the state of the process wide
flag, the bulk maps archive endpoint is fetched at most once: the trace of
the pass never holds two bulk archive fetch events.  Once the flag is set
by a successful fetch and expansion, no later maps entry fetches the
archive again. -/
theorem c5_maps_zip_at_most_once (env : Env) (pu cv : String) (cfg : Config)
    (mapsFlag : Bool) (fl : FileList) (fs : FS) :
    mapsZipGetCount (stateOf (patch env pu cv cfg mapsFlag fl fs)).events ≤ 1 := by
  unfold patch
  by_cases hv : cfg.fileListVersion = fl.version
  · rw [if_pos hv]
    by_cases hl : fl.version.data.length < 8
    · rw [if_pos hl]
      simp [stateOf, mapsZipGetCount_cons, mapsZipGetCount_nil, isMapsZipGet_log]
    · rw [if_neg hl]
      simp [stateOf, mapsZipGetCount_cons, mapsZipGetCount_nil, isMapsZipGet_log]
  · rw [if_neg hv]
    refine patchFinish_count env fl _ ?_
    refine processDownloads_mapsInv env pu cv fl.downloadPrefix fl.downloads _ ⟨?_, ?_⟩
    · simp [patchStart, mapsZipGetCount_cons, mapsZipGetCount_nil, isMapsZipGet_log]
    · intro hf
      simp [patchStart, mapsZipGetCount_cons, mapsZipGetCount_nil, isMapsZipGet_log]
